import Mathlib

/-!
Verification development for the Russian-dictionary CLI
(src/cli.js together with its detectEncoding module).

The program is embedded shallowly:

* byte buffers are lists of naturals (each entry one byte, 0..255);
* decoded text is a list of Unicode code points (naturals);
* a decoded line is a list of code points (`Line`);
* the three dictionary commands (add / delete / sort) are pure functions
  over line collections plus a small file-system model mapping paths to
  optional byte buffers, with a write being represented by the single
  `WriteEvent` the command would emit.

External library behaviour used by the program is embedded from its
documented semantics: Node's Buffer.toString with the utf8 label follows
the WHATWG UTF-8 decoder with U+FFFD substitution, iconv-lite's
windows-1251 single-byte table maps the one undefined byte 0x98 to
U+FFFD, and iconv-lite raises an error when handed an unrecognized
encoding name (such as the literal string given for an unknown encoding).
-/

/-- Unicode replacement character U+FFFD, emitted on decoding errors. -/
def replacementChar : Nat := 0xFFFD

/--
State of the WHATWG streaming UTF-8 decoder while inside a multi-byte
sequence: how many continuation bytes are still needed, the code point
accumulated so far, and the admissible range for the next byte.
-/
structure DecState where
  needed : Nat
  cp : Nat
  lo : Nat
  hi : Nat
deriving DecidableEq, Repr

/--
WHATWG UTF-8 lead-byte handling: an ASCII byte is emitted directly, a
well-formed lead byte opens a multi-byte sequence with the boundaries
the standard prescribes (0xE0/0xED/0xF0/0xF4 adjust them), and any other
byte yields one replacement character.
-/
def utf8Lead (b : Nat) : Option DecState × List Nat :=
  if b ≤ 0x7F then (none, [b])
  else if 0xC2 ≤ b ∧ b ≤ 0xDF then (some ⟨1, b - 0xC0, 0x80, 0xBF⟩, [])
  else if 0xE0 ≤ b ∧ b ≤ 0xEF then
    (some ⟨2, b - 0xE0, if b = 0xE0 then 0xA0 else 0x80,
      if b = 0xED then 0x9F else 0xBF⟩, [])
  else if 0xF0 ≤ b ∧ b ≤ 0xF4 then
    (some ⟨3, b - 0xF0, if b = 0xF0 then 0x90 else 0x80,
      if b = 0xF4 then 0x8F else 0xBF⟩, [])
  else (none, [replacementChar])

/--
One step of the WHATWG UTF-8 decoder: outside a sequence the byte is
treated as a lead byte; inside a sequence an in-range continuation byte
is accumulated (emitting the code point when the sequence completes),
and an out-of-range byte emits one replacement character and is then
reprocessed as a lead byte.
-/
def utf8Step (st : Option DecState) (b : Nat) : Option DecState × List Nat :=
  match st with
  | none => utf8Lead b
  | some s =>
    if s.lo ≤ b ∧ b ≤ s.hi then
      if s.needed = 1 then (none, [s.cp * 0x40 + (b - 0x80)])
      else (some ⟨s.needed - 1, s.cp * 0x40 + (b - 0x80), 0x80, 0xBF⟩, [])
    else
      let r := utf8Lead b
      (r.1, replacementChar :: r.2)

/-- Run the streaming decoder over a buffer; a sequence left unfinished
at end of input yields one replacement character. -/
def utf8Run : Option DecState → List Nat → List Nat
  | st, [] => match st with | some _ => [replacementChar] | none => []
  | st, b :: t =>
    let r := utf8Step st b
    r.2 ++ utf8Run r.1 t

/--
WHATWG UTF-8 decoding with replacement, the semantics of
Buffer.toString with the utf8 label in src/cli.js line 288
(buffer.toString): ASCII bytes map to themselves, well-formed multi-byte
sequences produce their code point, and every maximal invalid
subsequence produces replacement characters.
-/
def utf8Decode (buffer : List Nat) : List Nat := utf8Run none buffer

/-- Run of the recognizer for well-formed UTF-8: follows the transitions
of `utf8Step` but rejects whenever the decoder would emit a replacement
for a malformed sequence. -/
def validUtf8Run : Option DecState → List Nat → Bool
  | st, [] => st.isNone
  | none, b :: t =>
    if b ≤ 0x7F then validUtf8Run none t
    else if (0xC2 ≤ b ∧ b ≤ 0xDF) ∨ (0xE0 ≤ b ∧ b ≤ 0xEF) ∨
        (0xF0 ≤ b ∧ b ≤ 0xF4) then
      validUtf8Run (utf8Lead b).1 t
    else false
  | some s, b :: t =>
    if s.lo ≤ b ∧ b ≤ s.hi then
      validUtf8Run
        (if s.needed = 1 then none
         else some ⟨s.needed - 1, s.cp * 0x40 + (b - 0x80), 0x80, 0xBF⟩) t
    else false

/-- Recognizer for well-formed UTF-8 byte sequences. -/
def validUtf8 (buffer : List Nat) : Bool := validUtf8Run none buffer

/--
iconv-lite's windows-1251 decoding table for bytes 0x80..0xFF
(used by iconv.decode at src/cli.js line 295); the one byte undefined in
the code page, 0x98, decodes to U+FFFD.
-/
def cp1251Table : List Nat :=
  [0x402, 0x403, 0x201A, 0x453, 0x201E, 0x2026, 0x2020, 0x2021,
   0x20AC, 0x2030, 0x409, 0x2039, 0x40A, 0x40C, 0x40B, 0x40F,
   0x452, 0x2018, 0x2019, 0x201C, 0x201D, 0x2022, 0x2013, 0x2014,
   0xFFFD, 0x2122, 0x459, 0x203A, 0x45A, 0x45C, 0x45B, 0x45F,
   0xA0, 0x40E, 0x45E, 0x408, 0xA4, 0x490, 0xA6, 0xA7,
   0x401, 0xA9, 0x404, 0xAB, 0xAC, 0xAD, 0xAE, 0x407,
   0xB0, 0xB1, 0x406, 0x456, 0x491, 0xB5, 0xB6, 0xB7,
   0x451, 0x2116, 0x454, 0xBB, 0x458, 0x405, 0x455, 0x457]
  ++ (List.range 64).map (0x410 + ·)

/-- Decode a single windows-1251 byte to a code point. -/
def cp1251Byte (b : Nat) : Nat :=
  if b < 0x80 then b else cp1251Table.getD (b - 0x80) replacementChar

/-- Decode a whole buffer as windows-1251 (one code point per byte). -/
def cp1251Decode (buffer : List Nat) : List Nat := buffer.map cp1251Byte

/-- The closed set of labels returned by detectEncoding (src/cli.js). -/
inductive EncodingLabel
  | utf8
  | windows1251
  | unknown
deriving DecidableEq, Repr

/-- The character class of the regex spanning А..Я and а..я
(src/cli.js lines 289 and 296), the contiguous code points
0x410..0x44F.  Note this excludes Ё (0x401) and ё (0x451). -/
def isCyrAZ (c : Nat) : Bool := decide (0x410 ≤ c ∧ c ≤ 0x44F)

/-- Test of the regex for at least one Cyrillic letter А..Я or а..я. -/
def hasCyrillic (cps : List Nat) : Bool := cps.any isCyrAZ

/-- Test of the regex for the replacement character U+FFFD. -/
def hasReplacement (cps : List Nat) : Bool :=
  cps.any (fun c => decide (c = replacementChar))

/-- The UTF-8 acceptance test of src/cli.js line 289. -/
def utf8Accepts (buffer : List Nat) : Bool :=
  hasCyrillic (utf8Decode buffer) && !hasReplacement (utf8Decode buffer)

/-- The windows-1251 acceptance test of src/cli.js line 296. -/
def win1251Accepts (buffer : List Nat) : Bool :=
  hasCyrillic (cp1251Decode buffer) && !hasReplacement (cp1251Decode buffer)

/-- detectEncoding on an in-memory buffer (src/cli.js lines 286..301):
try UTF-8 first, then windows-1251, else the unknown label. -/
def detectEncodingBuf (buffer : List Nat) : EncodingLabel :=
  if utf8Accepts buffer then .utf8
  else if win1251Accepts buffer then .windows1251
  else .unknown

theorem utf8Decode_ascii :
    ∀ l : List Nat, (∀ x ∈ l, x ≤ 0x7F) → utf8Decode l = l := by
  intro l
  induction l with
  | nil => intro _; rfl
  | cons b t ih =>
    intro h
    have hb : b ≤ 0x7F := h b (List.mem_cons_self b t)
    have ht : utf8Decode t = t := ih fun x hx => h x (List.mem_cons_of_mem b hx)
    simp only [utf8Decode] at ht ⊢
    simp [utf8Run, utf8Step, utf8Lead, hb, ht]

theorem cp1251Byte_ascii (x : Nat) (h : x ≤ 0x7F) : cp1251Byte x = x := by
  unfold cp1251Byte
  rw [if_pos (by omega)]

theorem cp1251Decode_ascii :
    ∀ l : List Nat, (∀ x ∈ l, x ≤ 0x7F) → cp1251Decode l = l := by
  intro l
  induction l with
  | nil => intro _; rfl
  | cons b t ih =>
    intro h
    have hb := cp1251Byte_ascii b (h b (List.mem_cons_self b t))
    have ht := ih fun x hx => h x (List.mem_cons_of_mem b hx)
    simp only [cp1251Decode, List.map_cons] at *
    rw [hb, ht]

theorem hasCyrillic_ascii_false :
    ∀ l : List Nat, (∀ x ∈ l, x ≤ 0x7F) → hasCyrillic l = false := by
  intro l h
  unfold hasCyrillic
  rw [List.any_eq_false]
  intro x hx
  have : x ≤ 0x7F := h x hx
  unfold isCyrAZ
  simp; omega

theorem hasReplacement_ascii_false :
    ∀ l : List Nat, (∀ x ∈ l, x ≤ 0x7F) → hasReplacement l = false := by
  intro l h
  unfold hasReplacement
  rw [List.any_eq_false]
  intro x hx
  have : x ≤ 0x7F := h x hx
  simp [replacementChar]; omega

/-- C1: classification is an ordered, first-match procedure: a buffer
whose UTF-8 decoding shows a Cyrillic letter and no replacement
character is labelled utf8 (in particular one that also passes the
windows-1251 test); failing that, a buffer passing the windows-1251
test is labelled windows1251; otherwise unknown.  An empty buffer and a
pure-ASCII buffer are labelled unknown. -/
theorem detectEncoding_first_match (buffer : List Nat) :
    (utf8Accepts buffer = true → detectEncodingBuf buffer = .utf8)
    ∧ (utf8Accepts buffer = false → win1251Accepts buffer = true →
        detectEncodingBuf buffer = .windows1251)
    ∧ (utf8Accepts buffer = false → win1251Accepts buffer = false →
        detectEncodingBuf buffer = .unknown)
    ∧ (buffer = [] → detectEncodingBuf buffer = .unknown)
    ∧ ((∀ x ∈ buffer, x ≤ 0x7F) → detectEncodingBuf buffer = .unknown) := by
  refine ⟨?_, ?_, ?_, ?_, ?_⟩
  · intro h; simp [detectEncodingBuf, h]
  · intro h1 h2; simp [detectEncodingBuf, h1, h2]
  · intro h1 h2; simp [detectEncodingBuf, h1, h2]
  · rintro rfl; rfl
  · intro h
    have hu : utf8Accepts buffer = false := by
      unfold utf8Accepts
      rw [utf8Decode_ascii buffer h, hasCyrillic_ascii_false buffer h]
      rfl
    have hw : win1251Accepts buffer = false := by
      unfold win1251Accepts
      rw [cp1251Decode_ascii buffer h, hasCyrillic_ascii_false buffer h]
      rfl
    simp [detectEncodingBuf, hu, hw]

/-- Closed instances of C1: a valid UTF-8 Cyrillic buffer is labelled
utf8, and a pure-ASCII digit buffer as well as the empty buffer are
labelled unknown. -/
theorem detectEncoding_first_match_witness :
    detectEncodingBuf [0xD0, 0xB0] = .utf8
    ∧ detectEncodingBuf [0x31, 0x32, 0x33] = .unknown
    ∧ detectEncodingBuf [] = .unknown :=
  ⟨(detectEncoding_first_match [0xD0, 0xB0]).1 (by decide),
   (detectEncoding_first_match [0x31, 0x32, 0x33]).2.2.2.2 (by decide),
   (detectEncoding_first_match []).2.2.2.1 rfl⟩

/-- Membership in the full Cyrillic Unicode block 0x400..0x4FF. -/
def inCyrillicBlock (c : Nat) : Bool := decide (0x400 ≤ c ∧ c ≤ 0x4FF)

/-- C10: there is a byte buffer that is valid UTF-8, whose decoded text
contains the Cyrillic letter ё and no other Cyrillic characters, yet
classification does not return utf8, because the range А..Я/а..я of the
Cyrillic-presence test excludes ё and Ё. -/
theorem yo_buffer_not_utf8 :
    ∃ b : List Nat,
      validUtf8 b = true
      ∧ (utf8Decode b).any inCyrillicBlock = true
      ∧ (∀ c ∈ utf8Decode b, inCyrillicBlock c = true → c = 0x451 ∨ c = 0x401)
      ∧ hasCyrillic (utf8Decode b) = false
      ∧ detectEncodingBuf b ≠ .utf8 :=
  ⟨[0xD1, 0x91], by decide, by decide, by decide, by decide, by decide⟩

/-- A decoded text line: its sequence of Unicode code points.  JS string
equality (used by Set membership in src/cli.js) is exact sequence
equality, which is `DecidableEq` here. -/
abbrev Line := List Nat

/-- Position (1..33) of a code point in the Russian alphabet
а б в г д е ё ж з и й к л м н о п р с т у ф х ц ч ш щ ъ ы ь э ю я,
for both cases, or none for other characters. -/
def ruAlphaPos (c : Nat) : Option Nat :=
  if 0x410 ≤ c ∧ c ≤ 0x415 then some (c - 0x40F)
  else if c = 0x401 then some 7
  else if 0x416 ≤ c ∧ c ≤ 0x42F then some (c - 0x40E)
  else if 0x430 ≤ c ∧ c ≤ 0x435 then some (c - 0x42F)
  else if c = 0x451 then some 7
  else if 0x436 ≤ c ∧ c ≤ 0x44F then some (c - 0x42E)
  else none

/-- Primary collation weight of a character: Russian letters sort after
all other characters by their alphabet position (case-insensitively),
other characters by code point.  Weights are shifted so that 0 is free
to serve as a level separator. -/
def charPrimary (c : Nat) : Nat :=
  match ruAlphaPos c with
  | some p => 0x200000 + p
  | none => c + 1

/-- Uppercase Russian letters А..Я and Ё. -/
def isRuUpper (c : Nat) : Bool :=
  decide ((0x410 ≤ c ∧ c ≤ 0x42F) ∨ c = 0x401)

/-- Case weight of a character: lowercase before uppercase. -/
def charCase (c : Nat) : Nat := if isRuUpper c then 1 else 0

/-- Collation key of a line: primary weights of all characters, a level
separator, then the case weights.  Comparing keys lexicographically
models localeCompare with the Russian locale (src/cli.js lines 114 and
188): linguistic alphabet order first, case differences only as a
tiebreak. -/
def collKey (s : Line) : List Nat :=
  s.map charPrimary ++ 0 :: s.map charCase

/-- Lexicographic three-way comparison of weight lists. -/
def cmpKey : List Nat → List Nat → Ordering
  | [], [] => .eq
  | [], _ :: _ => .lt
  | _ :: _, [] => .gt
  | a :: as, b :: bs =>
    if a < b then .lt else if b < a then .gt else cmpKey as bs

/-- Model of a.localeCompare(b, ru): negative, zero or positive
according to the collation keys. -/
def localeCompareRu (a b : Line) : Int :=
  match cmpKey (collKey a) (collKey b) with
  | .lt => -1
  | .eq => 0
  | .gt => 1

/-- The ordering relation realized by Array.prototype.sort with the
comparator localeCompare: a sorts no later than b when the comparator
is nonpositive. -/
def ruLe (a b : Line) : Prop := localeCompareRu a b ≤ 0

instance : DecidableRel ruLe :=
  fun a b => decidable_of_iff (localeCompareRu a b ≤ 0) Iff.rfl

theorem cmpKey_swap : ∀ x y, cmpKey y x = (cmpKey x y).swap := by
  intro x
  induction x with
  | nil => intro y; cases y <;> rfl
  | cons a as ih =>
    intro y
    cases y with
    | nil => rfl
    | cons b bs =>
      simp only [cmpKey]
      rcases Nat.lt_trichotomy a b with h | h | h
      · rw [if_neg (by omega), if_pos h, if_pos h]; rfl
      · rw [if_neg (by omega), if_neg (by omega), if_neg (by omega),
          if_neg (by omega)]
        exact ih bs
      · rw [if_pos h, if_neg (by omega), if_pos h]; rfl

theorem cmpKey_not_gt_trans :
    ∀ x y z, cmpKey x y ≠ .gt → cmpKey y z ≠ .gt → cmpKey x z ≠ .gt := by
  intro x
  induction x with
  | nil => intro y z _ _; cases z <;> simp [cmpKey]
  | cons a as ih =>
    intro y z h1 h2
    cases y with
    | nil => simp [cmpKey] at h1
    | cons b bs =>
      cases z with
      | nil => simp [cmpKey] at h2
      | cons c cs =>
        simp only [cmpKey] at h1 h2 ⊢
        by_cases hab : a < b
        · by_cases hbc : b < c
          · rw [if_pos (by omega)]; decide
          · by_cases hcb : c < b
            · rw [if_neg (by omega), if_pos hcb] at h2
              exact absurd rfl h2
            · rw [if_pos (by omega)]; decide
        · by_cases hba : b < a
          · rw [if_neg hab, if_pos hba] at h1
            exact absurd rfl h1
          · by_cases hbc : b < c
            · rw [if_pos (by omega)]; decide
            · by_cases hcb : c < b
              · rw [if_neg hbc, if_pos hcb] at h2
                exact absurd rfl h2
              · rw [if_neg hab, if_neg hba] at h1
                rw [if_neg hbc, if_neg hcb] at h2
                rw [if_neg (by omega), if_neg (by omega)]
                exact ih bs cs h1 h2

theorem ruLe_iff (a b : Line) :
    ruLe a b ↔ cmpKey (collKey a) (collKey b) ≠ .gt := by
  unfold ruLe localeCompareRu
  cases h : cmpKey (collKey a) (collKey b) <;> decide

instance : IsTotal Line ruLe := by
  constructor
  intro a b
  by_cases h : cmpKey (collKey a) (collKey b) = .gt
  · right
    rw [ruLe_iff, cmpKey_swap, h]
    decide
  · exact Or.inl ((ruLe_iff a b).mpr h)

instance : IsTrans Line ruLe := by
  constructor
  intro a b c h1 h2
  exact (ruLe_iff a c).mpr
    (cmpKey_not_gt_trans _ _ _ ((ruLe_iff a b).mp h1) ((ruLe_iff b c).mp h2))

/-- The loop of src/cli.js lines 104..110 (and, with the counter
ignored, the JS Set constructor): walk the words, appending each word
absent from the set so far and incrementing the added counter. -/
def addLoop : List Line × Nat → List Line → List Line × Nat
  | p, [] => p
  | (acc, n), w :: ws =>
    if w ∈ acc then addLoop (acc, n) ws
    else addLoop (acc ++ [w], n + 1) ws

/-- The JS Set of a list of lines: first occurrences in insertion
order. -/
def jsSetOfList (l : List Line) : List Line := (addLoop ([], 0) l).1

/-- Array.prototype.sort with the localeCompare-based comparator
(src/cli.js lines 113..114 and 187..189), modelled as a stable sort
with respect to `ruLe`. -/
def jsSortRu (l : List Line) : List Line := List.insertionSort ruLe l

/-- Core of addWords (src/cli.js lines 100..114): build the word set
from the dictionary, insert the new words counting first-occurrence
additions, convert back to an array and sort. -/
def addWordsCore (dictLines newLines : List Line) : List Line × Nat :=
  let wordSet := jsSetOfList dictLines
  let r := addLoop (wordSet, 0) newLines
  (jsSortRu r.1, r.2)

/-- Core of deleteWords (src/cli.js lines 149..153): filter the
dictionary by the rejection set; the deleted count is the length
difference. -/
def deleteWordsCore (dictLines deleteLines : List Line) : List Line × Nat :=
  let deleteSet := jsSetOfList deleteLines
  let result := dictLines.filter (fun w => decide (w ∉ deleteSet))
  (result, dictLines.length - result.length)

/-- Core of sortDictionary (src/cli.js lines 184..192): deduplicate via
a Set, sort, and report the number of duplicates removed as the length
difference. -/
def sortDictionaryCore (lines : List Line) : List Line × Nat :=
  let uniqueWords := jsSetOfList lines
  let sortedWords := jsSortRu uniqueWords
  (sortedWords, lines.length - sortedWords.length)

theorem addLoop_mem :
    ∀ (ws acc : List Line) (n : Nat) (x : Line),
      x ∈ (addLoop (acc, n) ws).1 ↔ x ∈ acc ∨ x ∈ ws := by
  intro ws
  induction ws with
  | nil => intro acc n x; simp [addLoop]
  | cons w ws ih =>
    intro acc n x
    simp only [addLoop]
    by_cases hw : w ∈ acc
    · rw [if_pos hw, ih]
      constructor
      · rintro (h | h)
        · exact Or.inl h
        · exact Or.inr (List.mem_cons_of_mem w h)
      · rintro (h | h)
        · exact Or.inl h
        · rcases List.mem_cons.mp h with rfl | h
          · exact Or.inl hw
          · exact Or.inr h
    · rw [if_neg hw, ih]
      simp only [List.mem_append, List.mem_singleton, List.mem_cons]
      tauto

theorem addLoop_nodup :
    ∀ (ws acc : List Line) (n : Nat),
      acc.Nodup → (addLoop (acc, n) ws).1.Nodup := by
  intro ws
  induction ws with
  | nil => intro acc n h; exact h
  | cons w ws ih =>
    intro acc n h
    simp only [addLoop]
    by_cases hw : w ∈ acc
    · rw [if_pos hw]; exact ih acc n h
    · rw [if_neg hw]
      refine ih _ _ ?_
      rw [List.nodup_append]
      exact ⟨h, List.nodup_singleton w, by
        intro x hx hmem
        rcases List.mem_singleton.mp hmem with rfl
        exact hw hx⟩

theorem addLoop_count :
    ∀ (ws acc : List Line) (n : Nat),
      (addLoop (acc, n) ws).2 + acc.length
        = n + (addLoop (acc, n) ws).1.length := by
  intro ws
  induction ws with
  | nil => intro acc n; simp [addLoop]
  | cons w ws ih =>
    intro acc n
    simp only [addLoop]
    by_cases hw : w ∈ acc
    · rw [if_pos hw]; exact ih acc n
    · rw [if_neg hw]
      have := ih (acc ++ [w]) (n + 1)
      simp only [List.length_append, List.length_singleton] at this
      omega

theorem addLoop_id :
    ∀ (ws acc : List Line) (n : Nat),
      (acc ++ ws).Nodup →
        addLoop (acc, n) ws = (acc ++ ws, n + ws.length) := by
  intro ws
  induction ws with
  | nil => intro acc n _; simp [addLoop]
  | cons w ws ih =>
    intro acc n h
    have hw : w ∉ acc := by
      rw [List.nodup_append] at h
      intro hmem
      exact h.2.2 hmem (List.mem_cons_self w ws)
    simp only [addLoop, if_neg hw]
    have := ih (acc ++ [w]) (n + 1) (by simpa using h)
    rw [this]
    simp
    omega

theorem jsSet_mem (l : List Line) (x : Line) :
    x ∈ jsSetOfList l ↔ x ∈ l := by
  unfold jsSetOfList
  rw [addLoop_mem]
  simp

theorem jsSet_nodup (l : List Line) : (jsSetOfList l).Nodup :=
  addLoop_nodup l [] 0 List.nodup_nil

theorem jsSet_id (l : List Line) (h : l.Nodup) : jsSetOfList l = l := by
  unfold jsSetOfList
  rw [addLoop_id l [] 0 (by simpa using h)]
  simp

theorem jsSet_toFinset (l : List Line) :
    (jsSetOfList l).toFinset = l.toFinset := by
  apply Finset.ext
  intro x
  rw [List.mem_toFinset, List.mem_toFinset, jsSet_mem]

theorem jsSet_length (l : List Line) :
    (jsSetOfList l).length = l.toFinset.card := by
  rw [← jsSet_toFinset, List.toFinset_card_of_nodup (jsSet_nodup l)]

theorem jsSortRu_mem (l : List Line) (x : Line) :
    x ∈ jsSortRu l ↔ x ∈ l :=
  (List.perm_insertionSort ruLe l).mem_iff

theorem addWordsCore_mem (A B : List Line) (x : Line) :
    x ∈ (addWordsCore A B).1 ↔ x ∈ A ∨ x ∈ B := by
  unfold addWordsCore
  rw [jsSortRu_mem, addLoop_mem, jsSet_mem]

theorem addWordsCore_added (A B : List Line) :
    (addWordsCore A B).2 = (B.toFinset \ A.toFinset).card := by
  unfold addWordsCore
  have hcount := addLoop_count B (jsSetOfList A) 0
  have hnodup := addLoop_nodup B (jsSetOfList A) 0 (jsSet_nodup A)
  have hfin : (addLoop (jsSetOfList A, 0) B).1.toFinset
      = A.toFinset ∪ B.toFinset := by
    apply Finset.ext
    intro x
    rw [List.mem_toFinset, addLoop_mem, jsSet_mem, Finset.mem_union,
      List.mem_toFinset, List.mem_toFinset]
  have hlen : (addLoop (jsSetOfList A, 0) B).1.length
      = (A.toFinset ∪ B.toFinset).card := by
    rw [← hfin, List.toFinset_card_of_nodup hnodup]
  have hsd := Finset.card_sdiff_add_card B.toFinset A.toFinset
  have hsl := jsSet_length A
  have hle : A.toFinset.card ≤ (A.toFinset ∪ B.toFinset).card :=
    Finset.card_le_card Finset.subset_union_left
  rw [Finset.union_comm] at hsd
  simp only at hcount ⊢
  omega

theorem sortDictionaryCore_nodup (l : List Line) :
    (sortDictionaryCore l).1.Nodup :=
  (List.perm_insertionSort ruLe (jsSetOfList l)).symm.nodup (jsSet_nodup l)

theorem sortDictionaryCore_sorted (l : List Line) :
    List.Sorted ruLe (sortDictionaryCore l).1 :=
  List.sorted_insertionSort ruLe (jsSetOfList l)

theorem sortDictionaryCore_mem (l : List Line) (x : Line) :
    x ∈ (sortDictionaryCore l).1 ↔ x ∈ l := by
  unfold sortDictionaryCore
  rw [jsSortRu_mem, jsSet_mem]

/-- C2: Merge yields a result whose membership is the union of the two
collections' lines, its added count is the number of distinct lines of
the secondary collection absent from the primary one, and both are
unchanged under reordering of the secondary collection. -/
theorem addWords_merge_union (A B : List Line) :
    (∀ x, x ∈ (addWordsCore A B).1 ↔ x ∈ A ∨ x ∈ B)
    ∧ (addWordsCore A B).2 = (B.toFinset \ A.toFinset).card
    ∧ ∀ Bp, B.Perm Bp →
        (addWordsCore A Bp).2 = (addWordsCore A B).2
        ∧ ∀ x, x ∈ (addWordsCore A Bp).1 ↔ x ∈ (addWordsCore A B).1 := by
  refine ⟨fun x => addWordsCore_mem A B x, addWordsCore_added A B, ?_⟩
  intro Bp hperm
  have hfin : Bp.toFinset = B.toFinset := by
    apply Finset.ext
    intro x
    rw [List.mem_toFinset, List.mem_toFinset, hperm.mem_iff]
  constructor
  · rw [addWordsCore_added A Bp, addWordsCore_added A B, hfin]
  · intro x
    rw [addWordsCore_mem, addWordsCore_mem, hperm.mem_iff]

/-- Closed instance of C2: the added count is invariant under swapping
the two new words, and equals the number of genuinely new words. -/
theorem addWords_merge_union_witness :
    (addWordsCore [[0x430]] [[0x432], [0x431]]).2
      = (addWordsCore [[0x430]] [[0x431], [0x432]]).2
    ∧ (addWordsCore [[0x430]] [[0x431], [0x432]]).2 = 2 :=
  ⟨((addWords_merge_union [[0x430]] [[0x431], [0x432]]).2.2 [[0x432], [0x431]]
      (List.Perm.swap [0x432] [0x431] [])).1,
   by decide⟩

/-- The quantity written as the cardinality of the set of x in P with
x in R in C3: the number of distinct such lines. -/
def specInterCard (P R : List Line) : Nat :=
  ((P.filter fun w => decide (w ∈ R)).dedup).length

/-- C3 as stated fails: with the primary collection holding the same
line twice and the rejection collection holding it once, the output is
empty (length 0), while the claimed formula gives 2 - 1 = 1, since the
code removes every occurrence but the set cardinality counts the line
once. -/
theorem subtract_setcard_counterexample :
    (deleteWordsCore [[0x431], [0x431]] [[0x431]]).1.length
      ≠ [[0x431], [0x431]].length
        - specInterCard [[0x431], [0x431]] [[0x431]] := by decide

theorem length_filter_compl (q : Line → Bool) :
    ∀ P : List Line,
      (P.filter fun w => !q w).length + (P.filter q).length = P.length := by
  intro P
  induction P with
  | nil => rfl
  | cons w P ih =>
    rw [List.filter_cons, List.filter_cons]
    cases hq : q w <;> simp [List.length_cons] <;> omega

/-- C3 amended: the output length equals the primary length minus the
number of occurrences (positions) in P of lines belonging to R — not
minus the number of distinct such lines — and the reported removed
count equals the original length minus the result length. -/
theorem subtract_length (P R : List Line) :
    (deleteWordsCore P R).1.length
      = P.length - (P.filter fun w => decide (w ∈ R)).length
    ∧ (deleteWordsCore P R).2
      = P.length - (deleteWordsCore P R).1.length := by
  constructor
  · unfold deleteWordsCore
    simp only
    have hcong : (P.filter fun w => decide (w ∉ jsSetOfList R))
        = (P.filter fun w => !(decide (w ∈ R))) := by
      apply List.filter_congr
      intro x _
      by_cases hx : x ∈ R
      · have hx2 : x ∈ jsSetOfList R := (jsSet_mem R x).mpr hx
        simp [hx, hx2]
      · have hx2 : x ∉ jsSetOfList R := fun h => hx ((jsSet_mem R x).mp h)
        simp [hx, hx2]
    rw [hcong]
    have := length_filter_compl (fun w => decide (w ∈ R)) P
    omega
  · rfl

/-- C5: Subtract outputs a subsequence of the primary collection, in
original order, each output line being a line of P absent from R, with
no deduplication beyond the filtering: occurrences of lines not in R
are all kept. -/
theorem subtract_subsequence (P R : List Line) :
    List.Sublist (deleteWordsCore P R).1 P
    ∧ (∀ x ∈ (deleteWordsCore P R).1, x ∈ P ∧ x ∉ R)
    ∧ (∀ x, x ∉ R → (deleteWordsCore P R).1.count x = P.count x) := by
  refine ⟨List.filter_sublist P, ?_, ?_⟩
  · intro x hx
    unfold deleteWordsCore at hx
    simp only at hx
    rw [List.mem_filter] at hx
    refine ⟨hx.1, ?_⟩
    have := of_decide_eq_true hx.2
    exact fun hr => this ((jsSet_mem R x).mpr hr)
  · intro x hx
    unfold deleteWordsCore
    simp only
    apply List.count_filter
    exact decide_eq_true (fun h => hx ((jsSet_mem R x).mp h))

/-- Closed instance of C5 at the concrete collections of the spec's
third scenario. -/
theorem subtract_subsequence_witness :
    (([0x430] : Line) ∈ [[0x430], [0x431], [0x432]]
        ∧ ([0x430] : Line) ∉ [[0x431]])
    ∧ (deleteWordsCore [[0x430], [0x431], [0x432]] [[0x431]]).1.count [0x430]
        = ([[0x430], [0x431], [0x432]] : List Line).count [0x430] :=
  ⟨(subtract_subsequence [[0x430], [0x431], [0x432]] [[0x431]]).2.1
      [0x430] (by decide),
   (subtract_subsequence [[0x430], [0x431], [0x432]] [[0x431]]).2.2
      [0x430] (by decide)⟩

/-- C4: Normalize produces exactly the distinct lines of the input —
no duplicates, the same membership, no line altered — ordered by the
Russian collation comparator, and reports duplicatesRemoved equal to
the input length minus the output length. -/
theorem sortDictionary_normalizes (l : List Line) :
    (sortDictionaryCore l).1.Nodup
    ∧ (∀ x, x ∈ (sortDictionaryCore l).1 ↔ x ∈ l)
    ∧ List.Sorted ruLe (sortDictionaryCore l).1
    ∧ (sortDictionaryCore l).2 = l.length - (sortDictionaryCore l).1.length :=
  ⟨sortDictionaryCore_nodup l, fun x => sortDictionaryCore_mem l x,
   sortDictionaryCore_sorted l, rfl⟩

/-- C6: Normalize is idempotent: applied to its own output it returns
the same sequence with 0 duplicates removed. -/
theorem sortDictionary_idempotent (l : List Line) :
    sortDictionaryCore ((sortDictionaryCore l).1)
      = ((sortDictionaryCore l).1, 0) := by
  suffices h : ∀ s : List Line, s.Nodup → List.Sorted ruLe s →
      sortDictionaryCore s = (s, 0) from
    h _ (sortDictionaryCore_nodup l) (sortDictionaryCore_sorted l)
  intro s hnd hs
  simp only [sortDictionaryCore, jsSortRu]
  rw [jsSet_id s hnd, List.Sorted.insertionSort_eq hs]
  simp

/-- Decoding a buffer under an encoding label, as iconv-lite does for
the streams of src/cli.js lines 30 and 58: the unknown label names no
codec, so iconv raises an error (none); the two real labels decode. -/
def decodeWith : EncodingLabel → List Nat → Option (List Nat)
  | .utf8, buffer => some (utf8Decode buffer)
  | .windows1251, buffer => some (cp1251Decode buffer)
  | .unknown, _ => none

/-- Whitespace code points of String.prototype.trim, used for the
blank-line test of src/cli.js line 39. -/
def isJsWs (c : Nat) : Bool :=
  ([0x9, 0xA, 0xB, 0xC, 0xD, 0x20, 0xA0, 0x1680,
    0x2000, 0x2001, 0x2002, 0x2003, 0x2004, 0x2005, 0x2006, 0x2007,
    0x2008, 0x2009, 0x200A, 0x2028, 0x2029, 0x202F, 0x205F, 0x3000,
    0xFEFF] : List Nat).contains c

/-- Split decoded text into lines at LF, CR or CRLF, the behaviour of
readline with crlfDelay Infinity (src/cli.js lines 32..35). -/
def splitLinesAux (cur : Line) : List Nat → List Line
  | [] => [cur.reverse]
  | 13 :: 10 :: t => cur.reverse :: splitLinesAux [] t
  | 13 :: t => cur.reverse :: splitLinesAux [] t
  | 10 :: t => cur.reverse :: splitLinesAux [] t
  | c :: t => splitLinesAux (c :: cur) t

/-- All lines of a decoded text, terminators stripped. -/
def splitLines (cps : List Nat) : List Line := splitLinesAux [] cps

/-- The non-blank lines of a decoded text: the loop of src/cli.js
lines 38..42 keeps a line exactly when its trim is nonempty, that is
when some character is not whitespace. -/
def linesOf (cps : List Nat) : List Line :=
  (splitLines cps).filter (fun l => l.any (fun c => !isJsWs c))

/-- A file system: each path maps to the byte content of the file, or
none when the file cannot be read. -/
abbrev FileSystem := String → Option (List Nat)

/-- detectEncoding on a file (src/cli.js lines 281..305): read the
file and classify the buffer; a failing read is caught by the outer
try/catch and absorbed into the unknown label (lines 302..304). -/
def detectEncodingFile (fs : FileSystem) (filePath : String) : EncodingLabel :=
  match fs filePath with
  | none => .unknown
  | some buffer => detectEncodingBuf buffer

/-- readFileLines (src/cli.js lines 25..45): fails when the file
cannot be read or when iconv rejects the encoding label, otherwise
yields the non-blank decoded lines. -/
def readFileLinesM (fs : FileSystem) (filePath : String)
    (encoding : EncodingLabel) : Option (List Line) :=
  match fs filePath with
  | none => none
  | some buffer =>
    match decodeWith encoding buffer with
    | none => none
    | some cps => some (linesOf cps)

/-- A completed file write: destination path, the full line sequence
written, and the encoding used. -/
structure WriteEvent where
  path : String
  lines : List Line
  encoding : EncodingLabel
deriving DecidableEq, Repr

/-- addWords (src/cli.js lines 84..124): detect both encodings, read
both files, merge in memory, and only then write the merged result to
the dictionary path in the dictionary's detected encoding; none when
any step fails, since the catch block exits without writing. -/
def addWordsModel (fs : FileSystem) (dictPath newWordsPath : String) :
    Option WriteEvent :=
  let dictEncoding := detectEncodingFile fs dictPath
  let newWordsEncoding := detectEncodingFile fs newWordsPath
  match readFileLinesM fs dictPath dictEncoding with
  | none => none
  | some dictLines =>
    match readFileLinesM fs newWordsPath newWordsEncoding with
    | none => none
    | some newLines =>
      some ⟨dictPath, (addWordsCore dictLines newLines).1, dictEncoding⟩

/-- deleteWords (src/cli.js lines 133..163), modelled like
`addWordsModel`. -/
def deleteWordsModel (fs : FileSystem) (dictPath wordsToDeletePath : String) :
    Option WriteEvent :=
  let dictEncoding := detectEncodingFile fs dictPath
  let deleteEncoding := detectEncodingFile fs wordsToDeletePath
  match readFileLinesM fs dictPath dictEncoding with
  | none => none
  | some dictLines =>
    match readFileLinesM fs wordsToDeletePath deleteEncoding with
    | none => none
    | some deleteLines =>
      some ⟨dictPath, (deleteWordsCore dictLines deleteLines).1, dictEncoding⟩

/-- sortDictionary (src/cli.js lines 171..202), modelled like
`addWordsModel`. -/
def sortDictionaryModel (fs : FileSystem) (dictPath : String) :
    Option WriteEvent :=
  let encoding := detectEncodingFile fs dictPath
  match readFileLinesM fs dictPath encoding with
  | none => none
  | some lines => some ⟨dictPath, (sortDictionaryCore lines).1, encoding⟩

theorem readFileLinesM_unknown (fs : FileSystem) (filePath : String) :
    readFileLinesM fs filePath .unknown = none := by
  unfold readFileLinesM
  cases fs filePath <;> rfl

/-- A demonstration file system: the dictionary file holds UTF-8 bytes
of one Cyrillic letter, the secondary file windows-1251 bytes of the
same letter. -/
def fsDemo : FileSystem := fun p =>
  if p = "dict" then some [0xD0, 0xB0]
  else if p = "new" then some [0xE0]
  else none

/-- C7: any write performed by the add, delete or sort command goes to
the dictionary path and uses the encoding detected for that dictionary
at the start of the operation, whatever the encoding detected for the
other file involved. -/
theorem write_encoding_stable (fs : FileSystem) (dictPath otherPath : String) :
    (∀ ev, addWordsModel fs dictPath otherPath = some ev →
        ev.encoding = detectEncodingFile fs dictPath ∧ ev.path = dictPath)
    ∧ (∀ ev, deleteWordsModel fs dictPath otherPath = some ev →
        ev.encoding = detectEncodingFile fs dictPath ∧ ev.path = dictPath)
    ∧ (∀ ev, sortDictionaryModel fs dictPath = some ev →
        ev.encoding = detectEncodingFile fs dictPath ∧ ev.path = dictPath) := by
  refine ⟨?_, ?_, ?_⟩
  · intro ev h
    simp only [addWordsModel] at h
    split at h
    · exact Option.noConfusion h
    · split at h
      · exact Option.noConfusion h
      · injection h with h2
        subst h2
        exact ⟨rfl, rfl⟩
  · intro ev h
    simp only [deleteWordsModel] at h
    split at h
    · exact Option.noConfusion h
    · split at h
      · exact Option.noConfusion h
      · injection h with h2
        subst h2
        exact ⟨rfl, rfl⟩
  · intro ev h
    simp only [sortDictionaryModel] at h
    split at h
    · exact Option.noConfusion h
    · injection h with h2
      subst h2
      exact ⟨rfl, rfl⟩

/-- Closed instance of C7: on `fsDemo` the dictionary is detected as
utf8 while the secondary file is detected as windows1251, and each of
the three commands writes with the dictionary encoding. -/
theorem write_encoding_stable_witness :
    (WriteEvent.mk "dict" [[0x430]] .utf8).encoding
        = detectEncodingFile fsDemo "dict"
    ∧ (WriteEvent.mk "dict" [] .utf8).encoding
        = detectEncodingFile fsDemo "dict"
    ∧ (WriteEvent.mk "dict" [[0x430]] .utf8).encoding
        = detectEncodingFile fsDemo "dict"
    ∧ detectEncodingFile fsDemo "new" = .windows1251 :=
  ⟨((write_encoding_stable fsDemo "dict" "new").1 _ (by decide)).1,
   ((write_encoding_stable fsDemo "dict" "new").2.1 _ (by decide)).1,
   ((write_encoding_stable fsDemo "dict" "new").2.2 _ (by decide)).1,
   by decide⟩

/-- C8: when the dictionary's detected encoding is unknown, none of
the three commands performs a write (iconv rejects the label inside
readFileLines, the catch block exits, and writeFileLines is never
reached); moreover a write that does happen carries the fully computed
result sequence, both inputs having been read successfully first. -/
theorem no_write_on_unknown (fs : FileSystem) (dictPath otherPath : String) :
    (detectEncodingFile fs dictPath = .unknown →
      addWordsModel fs dictPath otherPath = none
      ∧ deleteWordsModel fs dictPath otherPath = none
      ∧ sortDictionaryModel fs dictPath = none)
    ∧ (∀ ev, addWordsModel fs dictPath otherPath = some ev →
        ∃ dictLines newLines,
          readFileLinesM fs dictPath (detectEncodingFile fs dictPath)
              = some dictLines
          ∧ readFileLinesM fs otherPath (detectEncodingFile fs otherPath)
              = some newLines
          ∧ ev.lines = (addWordsCore dictLines newLines).1) := by
  constructor
  · intro h
    refine ⟨?_, ?_, ?_⟩
    · simp [addWordsModel, h, readFileLinesM_unknown]
    · simp [deleteWordsModel, h, readFileLinesM_unknown]
    · simp [sortDictionaryModel, h, readFileLinesM_unknown]
  · intro ev h
    simp only [addWordsModel] at h
    split at h
    · exact Option.noConfusion h
    · rename_i dictLines h1
      split at h
      · exact Option.noConfusion h
      · rename_i newLines h2
        injection h with h3
        exact ⟨dictLines, newLines, h1, h2, by rw [← h3]⟩

/-- Closed instance of C8: with no readable file every command skips
the write, and on `fsDemo` the write of the add command is the fully
computed merge of the two successfully read files. -/
theorem no_write_on_unknown_witness :
    (addWordsModel (fun _ => none) "dict" "new" = none
      ∧ deleteWordsModel (fun _ => none) "dict" "new" = none
      ∧ sortDictionaryModel (fun _ => none) "dict" = none)
    ∧ ∃ dictLines newLines,
        readFileLinesM fsDemo "dict" (detectEncodingFile fsDemo "dict")
            = some dictLines
        ∧ readFileLinesM fsDemo "new" (detectEncodingFile fsDemo "new")
            = some newLines
        ∧ (WriteEvent.mk "dict" [[0x430]] .utf8).lines
            = (addWordsCore dictLines newLines).1 :=
  ⟨(no_write_on_unknown (fun _ => none) "dict" "new").1 rfl,
   (no_write_on_unknown fsDemo "dict" "new").2 _ (by decide)⟩

/-- C9 as stated fails: a read failure during encoding detection does
not surface to the caller as an error — detectEncoding catches it
(src/cli.js lines 302..304) and absorbs it into the normal unknown
label, here at the concrete input of a file system with no readable
file. -/
theorem detect_absorbs_read_failure :
    detectEncodingFile (fun _ => none) "missing" = .unknown := rfl

/-- C9 amended: a read failure during encoding detection is absorbed
into the unknown label rather than propagated; the failure then
surfaces in the subsequent line-reading step, so each command on an
unreadable dictionary file fails without retrying and without
writing. -/
theorem read_failure_propagation (fs : FileSystem)
    (dictPath otherPath : String) (h : fs dictPath = none) :
    detectEncodingFile fs dictPath = .unknown
    ∧ addWordsModel fs dictPath otherPath = none
    ∧ deleteWordsModel fs dictPath otherPath = none
    ∧ sortDictionaryModel fs dictPath = none := by
  have hread : ∀ enc, readFileLinesM fs dictPath enc = none := by
    intro enc
    unfold readFileLinesM
    rw [h]
  refine ⟨by unfold detectEncodingFile; rw [h], ?_, ?_, ?_⟩
  · simp [addWordsModel, hread]
  · simp [deleteWordsModel, hread]
  · simp [sortDictionaryModel, hread]

/-- Closed instance of the amended C9 at a file system with no
readable file. -/
theorem read_failure_propagation_witness :
    detectEncodingFile (fun _ => none) "nofile" = .unknown
    ∧ addWordsModel (fun _ => none) "nofile" "other" = none :=
  ⟨(read_failure_propagation (fun _ => none) "nofile" "other" rfl).1,
   (read_failure_propagation (fun _ => none) "nofile" "other" rfl).2.1⟩
